import Mathlib

/-!
Verification of the insertion-normalization engine of the obsidian-llm-helper
plugin.  Text is modelled as `List Char`; each JavaScript helper of the main
module (`getListLineInfo`, `normalizeListText`, `getBlockquotePrefix`,
`applyBlockquotePrefix`, `isInsideCodeFence`, `stripOuterCodeFence`,
`findFenceBounds`, `trimOuterBlankLines`, `normalizeParagraphSpacing`) and the
`runAiEdit` orchestrator are translated to executable Lean functions.
-/

/-- Text and lines are lists of characters (a line never carries `\n`). -/
abbrev Text := List Char

abbrev Line := List Char

/-- Characters matched by the JavaScript regex class `\s`. -/
def jsIsWs (c : Char) : Bool :=
  let n := c.toNat
  n = 32 || n = 9 || n = 10 || n = 11 || n = 12 || n = 13 || n = 160 ||
  n = 0x1680 || (0x2000 ≤ n && n ≤ 0x200A) || n = 0x2028 || n = 0x2029 ||
  n = 0x202F || n = 0x205F || n = 0x3000 || n = 0xFEFF

/-- JavaScript `String.prototype.trimEnd`. -/
def jsTrimEnd (l : Line) : Line :=
  (l.reverse.dropWhile jsIsWs).reverse

/-- JavaScript `String.prototype.trim`. -/
def jsTrim (l : Line) : Line :=
  ((l.dropWhile jsIsWs).reverse.dropWhile jsIsWs).reverse

/-- `text.split("\n")` of JavaScript. -/
def splitNl : List Char → List (List Char)
  | [] => [[]]
  | c :: cs =>
    if c = '\n' then [] :: splitNl cs
    else
      match splitNl cs with
      | [] => [[c]]
      | l :: ls => (c :: l) :: ls

/-- `lines.join("\n")` of JavaScript. -/
def joinNl : List (List Char) → List Char
  | [] => []
  | [l] => l
  | l :: ls => l ++ '\n' :: joinNl ls

/-- Shorthand turning a Lean string literal into the `List Char` text model. -/
def str (s : String) : Text := s.data

/-- The backtick character that delimits code fences. -/
def btickChar : Char := Char.ofNat 96

/-- The three-character fence marker made of backticks. -/
def btickFence : Line := [btickChar, btickChar, btickChar]

/-- The three-character fence marker made of tildes. -/
def tildeFence : Line := ['~', '~', '~']

/-!  Line classification (regex `^(\s*)([-*+]|(?:\d+\.))\s*(.*)$` and friends). -/

/-- Core of the list-item regexes: splits a line into captured indent, captured
marker and the raw remainder after the marker (`none` when no marker parses). -/
def matchListCore (l : Line) : Option (Line × Line × Line) :=
  let indent := l.takeWhile jsIsWs
  match l.dropWhile jsIsWs with
  | [] => none
  | c :: tl =>
    if c = '-' || c = '*' || c = '+' then some (indent, [c], tl)
    else if c.isDigit then
      match (c :: tl).dropWhile Char.isDigit with
      | '.' :: tl2 => some (indent, (c :: tl).takeWhile Char.isDigit ++ ['.'], tl2)
      | _ => none
    else none

/-- Result record of `getListLineInfo` from the source. -/
structure ListInfo where
  pfx : Line
  indent : Line
  marker : Line
  isStub : Bool
  deriving DecidableEq, Repr

/-- `getListLineInfo` of the source: regex `^(\s*)([-*+]|(?:\d+\.))\s*(.*)$`,
with `isStub` true iff the rest of the line trims to nothing. -/
def getListLineInfo (line : Line) : Option ListInfo :=
  (matchListCore line).map fun x =>
    let rest := x.2.2.dropWhile jsIsWs
    { pfx := x.1 ++ x.2.1 ++ [' ']
      indent := x.1
      marker := x.2.1
      isStub := (jsTrim rest).isEmpty }

/-- The stricter list regex `^(\s*)([-*+]|(?:\d+\.))\s+(.*)$` used inside
`normalizeListText`: whitespace after the marker is mandatory. -/
def matchListMarkerStrict (l : Line) : Option (Line × Line × Line) :=
  match matchListCore l with
  | none => none
  | some (indent, marker, after) =>
    if (after.takeWhile jsIsWs).isEmpty then none
    else some (indent, marker, after.dropWhile jsIsWs)

/-!  Blockquote prefix (regex `^(\s*>+\s?)`). -/

/-- Length of the span matched by `^\s*>+\s?` (`none` when the line has no
blockquote marker). -/
def bqMatchLen (line : Line) : Option Nat :=
  let r := line.dropWhile jsIsWs
  let gts := r.takeWhile (fun c => c = '>')
  if gts.isEmpty then none
  else
    let after := r.drop gts.length
    let extra := match after with
      | c :: _ => if jsIsWs c then 1 else 0
      | [] => 0
    some ((line.takeWhile jsIsWs).length + gts.length + extra)

/-- `getBlockquotePrefix` of the source: the captured `^(\s*>+\s?)` span. -/
def getBlockquotePrefix (line : Line) : Option Line :=
  (bqMatchLen line).map fun n => line.take n

/-- `line.replace(/^\s*>+\s?/, "")` of the source. -/
def stripBq (line : Line) : Line :=
  match bqMatchLen line with
  | some n => line.drop n
  | none => line

/-- `applyBlockquotePrefix` of the source: per line, strip any blockquote
marker the model added, then prepend the destination prefix. -/
def applyBlockquotePrefix (text : Text) (pfx : Line) : Text :=
  joinNl ((splitNl text).map fun l => pfx ++ stripBq l)

/-!  Fence-boundary lines (regex `^\s*(```|~~~)`). -/

/-- Capture group of `^\s*(```|~~~)`: the fence marker style of a boundary
line, or `none` for a non-boundary line. -/
def fenceMarker (line : Line) : Option Line :=
  match line.dropWhile jsIsWs with
  | c1 :: c2 :: c3 :: _ =>
    if c1 = btickChar && c2 = btickChar && c3 = btickChar then some btickFence
    else if c1 = '~' && c2 = '~' && c3 = '~' then some tildeFence
    else none
  | _ => none

/-- `^\s*(```|~~~)` used as a test. -/
def isFence (line : Line) : Bool :=
  (fenceMarker line).isSome

/-!  Fence tracker. -/

/-- Loop body of `isInsideCodeFence`: walks the lines with their index,
carrying the currently open fence marker; mirrors the early `return true`
when the closing boundary sits at or after the queried line, and the `break`
at the queried line that returns whether a fence is open. -/
def insideFenceLoop : List Line → Nat → Nat → Option Line → Bool
  | [], _, _, fence => fence.isSome
  | l :: rest, i, cur, fence =>
    match fenceMarker l with
    | some m =>
      match fence with
      | none => if i = cur then true else insideFenceLoop rest (i + 1) cur (some m)
      | some f =>
        if f = m then
          if cur ≤ i then true
          else insideFenceLoop rest (i + 1) cur none
        else if i = cur then true else insideFenceLoop rest (i + 1) cur (some f)
    | none =>
      if i = cur then fence.isSome else insideFenceLoop rest (i + 1) cur fence

/-- `isInsideCodeFence` of the source: whole-document scan up to the current
line, pairing boundary lines of the same marker style. -/
def isInsideCodeFence (doc : Text) (currentLine : Nat) : Bool :=
  insideFenceLoop (splitNl doc) 0 currentLine none

/-- `stripOuterCodeFence` of the source: drop the first and last line when both
are fence-boundary lines of the same marker style. -/
def stripOuterCodeFence (text : Text) : Text :=
  let lines := splitNl text
  if lines.length < 2 then text
  else
    match fenceMarker (lines.headD []), fenceMarker (lines.getLastD []) with
    | some a, some b => if a = b then joinNl ((lines.drop 1).dropLast) else text
    | _, _ => text

/-- Backward scan of `findFenceBounds`: nearest fence-boundary line at or
below the given index (missing lines read as `""`). -/
def searchBack (dl : List Line) : Nat → Option Nat
  | 0 => if isFence (dl.getD 0 []) then some 0 else none
  | i + 1 => if isFence (dl.getD (i + 1) []) then some (i + 1) else searchBack dl i

/-- Forward scan of `findFenceBounds` over the remaining lines, carrying the
absolute index of the head. -/
def searchFwd : List Line → Nat → Option Nat
  | [], _ => none
  | l :: tl, i => if isFence l then some i else searchFwd tl (i + 1)

/-- `findFenceBounds` of the source: nearest boundary at or before the index,
nearest boundary at or after it, bounds only when both exist and differ. -/
def findFenceBounds (docLines : List Line) (lineIndex : Nat) : Option (Nat × Nat) :=
  match searchBack docLines lineIndex with
  | none => none
  | some s =>
    match searchFwd (docLines.drop lineIndex) lineIndex with
    | none => none
    | some e => if e = s then none else some (s, e)

/-!  Blank-line and paragraph-spacing normalization. -/

/-- `trimOuterBlankLines` of the source: drop the leading newline run when the
character before the insertion point is a newline, and the trailing run when
the character after it is one. -/
def trimOuterBlankLines (text : Text) (atStart atEnd : Bool) : Text :=
  let r1 := if atStart then text.dropWhile (fun c => c = '\n') else text
  if atEnd then (r1.reverse.dropWhile (fun c => c = '\n')).reverse else r1

/-- `body.replace(/^\n+/, "\n")`: collapse a leading newline run to one. -/
def collapseLeadNl (s : Text) : Text :=
  if s.head? = some '\n' then '\n' :: s.dropWhile (fun c => c = '\n') else s

/-- `body.replace(/\n+$/, "\n")`: collapse a trailing newline run to one. -/
def collapseTrailNl (s : Text) : Text :=
  (collapseLeadNl s.reverse).reverse

/-- `prevLine.trim().length > 0` for the line above the insertion line. -/
def prevHasText (docLines : List Line) (i : Nat) : Bool :=
  !(jsTrim (if 0 < i then docLines.getD (i - 1) [] else [])).isEmpty

/-- `nextLine.trim().length > 0` for the line below the insertion line. -/
def nextHasText (docLines : List Line) (i : Nat) : Bool :=
  !(jsTrim (if i + 1 < docLines.length then docLines.getD (i + 1) [] else [])).isEmpty

/-- Prepend a newline when the previous line has text and none is present. -/
def npsAddLead (pT : Bool) (b : Text) : Text :=
  if pT && !(decide (b.head? = some '\n')) then '\n' :: b else b

/-- Append a newline when the next line has text and none is present. -/
def npsAddTrail (nT : Bool) (b : Text) : Text :=
  if nT && !(decide (b.getLast? = some '\n')) then b ++ ['\n'] else b

/-- Body of `normalizeParagraphSpacing` once both neighbour flags are known. -/
def npsCore (content : Text) (pT nT : Bool) : Text :=
  npsAddTrail nT (npsAddLead pT (collapseTrailNl (if pT then collapseLeadNl content else content)))

/-- `normalizeParagraphSpacing` of the source: only acts when the insertion
line is blank and at least one neighbour line has text. -/
def normalizeParagraphSpacing (content : Text) (docLines : List Line) (lineIndex : Nat) : Text :=
  if (jsTrim (docLines.getD lineIndex [])).isEmpty then
    if !prevHasText docLines lineIndex && !nextHasText docLines lineIndex then content
    else npsCore content (prevHasText docLines lineIndex) (nextHasText docLines lineIndex)
  else content

/-!  List-stub rewriting. -/

/-- Per-line body of `normalizeListText` (`idx` is the output line number). -/
def normalizeListLine (basePfx stubIndent : Line) (idx : Nat) (line : Line) : Line :=
  if (jsTrim line).isEmpty then jsTrimEnd basePfx
  else
    match matchListMarkerStrict line with
    | some (extraIndent, marker, content) =>
      if idx = 0 then jsTrimEnd (basePfx ++ content)
      else jsTrimEnd (stubIndent ++ extraIndent ++ marker ++ [' '] ++ content)
    | none =>
      if idx = 0 then jsTrimEnd (basePfx ++ jsTrim line)
      else basePfx ++ jsTrimEnd line

/-- Indexed traversal underlying `normalizeListText`. -/
def normLines (basePfx stubIndent : Line) : Nat → List Line → List Line
  | _, [] => []
  | idx, l :: rest =>
    normalizeListLine basePfx stubIndent idx l :: normLines basePfx stubIndent (idx + 1) rest

/-- `normalizeListText` of the source: re-derive every output line as list
content anchored at the stub's indent and marker. -/
def normalizeListText (text stubIndent stubMarker : Text) : Text :=
  joinNl (normLines (stubIndent ++ stubMarker ++ [' ']) stubIndent 0 (splitNl text))

/-!  Buffer positions and the edit orchestrator (`runAiEdit`). -/

/-- Character offset of the start of a line (each line is terminated by one
newline). -/
def lineStartOffset (dl : List Line) (line : Nat) : Nat :=
  ((dl.take line).map (fun l => l.length + 1)).sum

/-- `posToOffset` of the editor capability. -/
def posToOffset (dl : List Line) (line ch : Nat) : Nat :=
  lineStartOffset dl line + ch

/-- `offsetToPos` of the editor capability: walk the lines, clamping to the
end of the final line. -/
def offsetToPos : List Line → Nat → Nat → Nat × Nat
  | [], i, _ => (i, 0)
  | [l], i, off => (i, min off l.length)
  | l :: rest, i, off =>
    if off ≤ l.length then (i, off) else offsetToPos rest (i + 1) (off - l.length - 1)

/-- Replace the character range `[s, e)` of the buffer with the given text. -/
def splice (doc : Text) (s e : Nat) (content : Text) : Text :=
  doc.take s ++ content ++ doc.drop e

/-- Whether the character immediately before the offset is a newline
(`doc[insertOffset - 1] === "\n"`). -/
def beforeCharNl (doc : Text) (off : Nat) : Bool :=
  if 0 < off then decide (doc.getD (off - 1) ' ' = '\n') else false

/-- Whether the character at the offset is a newline
(`doc[insertOffset] === "\n"`). -/
def afterCharNl (doc : Text) (off : Nat) : Bool :=
  if off < doc.length then decide (doc.getD off ' ' = '\n') else false

/-- `insertText = finalContent.endsWith("\n") ? finalContent : finalContent + "\n"`. -/
def ensureTrailingNl (t : Text) : Text :=
  if t.getLast? = some '\n' then t else t ++ ['\n']

/-- The boundary-trimmed model output at the start of the insert path. -/
def finalContent0 (doc : Text) (line ch : Nat) (content : Text) : Text :=
  trimOuterBlankLines content
    (beforeCharNl doc (posToOffset (splitNl doc) line ch))
    (afterCharNl doc (posToOffset (splitNl doc) line ch))

/-- The insert path's `insideFence` determination: fence bounds when found,
otherwise the whole-document scan or the blank-line-before-fence heuristic. -/
def insideFenceOf (doc : Text) (line : Nat) : Bool :=
  match findFenceBounds (splitNl doc) line with
  | some (s, e) => decide (s ≤ line) && decide (line ≤ e)
  | none =>
    isInsideCodeFence doc line
      || ((jsTrim ((splitNl doc).getD line [])).isEmpty
            && isFence ((splitNl doc).getD (line + 1) []))

/-- Target line of the in-fence insertion when the current line is not blank:
the closing bound when bounds were found, else the insertion line. -/
def fenceTargetLine (dl : List Line) (line : Nat) : Nat :=
  match findFenceBounds dl line with
  | some (_, e) => e
  | none => line

/-- The in-fence write of the insert path: replace a blank current line
(including its newline) when more document follows, otherwise insert at the
start of the target line; always with a guaranteed trailing newline. -/
def fenceBranch (doc : Text) (line : Nat) (fc : Text) : Text :=
  if (jsTrim ((splitNl doc).getD line [])).isEmpty
      && decide (line + 1 < (splitNl doc).length) then
    splice doc (posToOffset (splitNl doc) line 0) (posToOffset (splitNl doc) (line + 1) 0)
      (ensureTrailingNl fc)
  else
    splice doc (posToOffset (splitNl doc) (fenceTargetLine (splitNl doc) line) 0)
      (posToOffset (splitNl doc) (fenceTargetLine (splitNl doc) line) 0)
      (ensureTrailingNl fc)

/-- Blockquote re-prefixing and the final plain insertion of the insert path. -/
def bqOrPlain (doc : Text) (line ch : Nat) (fc2 : Text) : Text :=
  match getBlockquotePrefix ((splitNl doc).getD line []) with
  | some p =>
    if (jsTrim (stripBq ((splitNl doc).getD line []))).isEmpty then
      splice doc (posToOffset (splitNl doc) line 0)
        (posToOffset (splitNl doc) line ((splitNl doc).getD line []).length)
        (applyBlockquotePrefix fc2 p)
    else
      splice doc (posToOffset (splitNl doc) line ch) (posToOffset (splitNl doc) line ch)
        (applyBlockquotePrefix fc2 p)
  | none =>
    splice doc (posToOffset (splitNl doc) line ch) (posToOffset (splitNl doc) line ch) fc2

/-- Non-fence part of the insert path: newline before content appended at the
end of a filled list line, paragraph spacing, then the list-stub, blockquote
or plain insertion. -/
def nonFenceBranch (doc : Text) (line ch : Nat) (fc : Text) : Text :=
  let dl := splitNl doc
  let currentLine := dl.getD line []
  let fc1 :=
    match getListLineInfo currentLine with
    | some info =>
      if !info.isStub && decide (ch = currentLine.length)
          && !(decide (fc.head? = some '\n')) then '\n' :: fc
      else fc
    | none => fc
  let fc2 := normalizeParagraphSpacing fc1 dl line
  match getListLineInfo currentLine with
  | some info =>
    if info.isStub then
      splice doc (posToOffset dl line 0) (posToOffset dl line currentLine.length)
        (normalizeListText fc2 info.indent info.marker)
    else bqOrPlain doc line ch fc2
  | none => bqOrPlain doc line ch fc2

/-- The whole insert path of `runAiEdit` given the generated content and the
insertion position. -/
def runAiEditInsert (doc : Text) (line ch : Nat) (content : Text) : Text :=
  if insideFenceOf doc line then
    fenceBranch doc line (stripOuterCodeFence (finalContent0 doc line ch content))
  else
    nonFenceBranch doc line ch (finalContent0 doc line ch content)

/-- Apply mode of an invocation. -/
inductive ApplyMode
  | replace
  | insert
  deriving DecidableEq, Repr

/-- Outcome of one orchestrator invocation: the buffer afterwards and the
error surfaced, if any (errors leave the buffer untouched). -/
structure EditOutcome where
  buffer : Text
  error : Option String
  deriving DecidableEq, Repr

/-- `runAiEdit` of the source given the text the generation capability
returned: mode check, verbatim selection replacement, or the insert path. -/
def runAiEdit (doc : Text) (selStart selEnd : Nat) (mode : ApplyMode) (content : Text) :
    EditOutcome :=
  let selection := (doc.take selEnd).drop selStart
  match mode with
  | .replace =>
    if selection.isEmpty then
      { buffer := doc, error := some "Replace mode requires a selection." }
    else { buffer := splice doc selStart selEnd content, error := none }
  | .insert =>
    let p := offsetToPos (splitNl doc) 0 selEnd
    { buffer := runAiEditInsert doc p.1 p.2 content, error := none }

/-- `content.includes("\\n")`: the two-character sequence backslash-n. -/
def hasBackslashN : Text → Bool
  | '\\' :: 'n' :: _ => true
  | _ :: rest => hasBackslashN rest
  | [] => false

/-- `content.replace(/\\n/g, "\n")`: left-to-right replacement of every
literal backslash-n by a newline. -/
def replBackslashN : Text → Text
  | '\\' :: 'n' :: rest => '\n' :: replBackslashN rest
  | c :: rest => c :: replBackslashN rest
  | [] => []

/-- Replace-mode path of the `part_001` variant of `runAiEdit`, which first
converts literal backslash-n sequences to newlines when the returned text
contains no real newline. -/
def runAiEditReplaceV1 (doc : Text) (selStart selEnd : Nat) (content : Text) : EditOutcome :=
  let selection := (doc.take selEnd).drop selStart
  if selection.isEmpty then
    { buffer := doc, error := some "Replace mode requires a selection." }
  else
    let c2 := if !content.contains '\n' && hasBackslashN content
      then replBackslashN content else content
    { buffer := splice doc selStart selEnd c2, error := none }

example : runAiEdit (str "Workspace\n- Desk\n- \n") 19 19 .insert (str "- Mail handling") =
    { buffer := str "Workspace\n- Desk\n- Mail handling\n", error := none } := by decide

example : runAiEdit (str "- Parent\n  - \n") 13 13 .insert (str "- Child one\n- Child two") =
    { buffer := str "- Parent\n  - Child one\n  - Child two\n", error := none } := by decide

example : runAiEdit (str "1. First\n2. \n") 12 12 .insert (str "3. Second item") =
    { buffer := str "1. First\n2. Second item\n", error := none } := by decide

example : runAiEdit (str "> Quote\n> \n") 10 10 .insert (str "Another line") =
    { buffer := str "> Quote\n> Another line\n", error := none } := by decide

example : runAiEdit (str "> Quote\n> \n") 10 10 .insert (str "> Already quoted") =
    { buffer := str "> Quote\n> Already quoted\n", error := none } := by decide

example : runAiEdit (str "```\ncode line\n\n```\n") 14 14 .insert (str "```\nnewCall();\n```") =
    { buffer := str "```\ncode line\nnewCall();\n```\n", error := none } := by decide

example : runAiEdit (str "Intro\n\n") 7 7 .insert (str "```\nblock\n```") =
    { buffer := str "Intro\n\n```\nblock\n```", error := none } := by decide

example : runAiEdit (str "Intro\n\n") 7 7 .insert (str "\n\nMore text\n") =
    { buffer := str "Intro\n\nMore text\n", error := none } := by decide

example : runAiEdit (str "Hello\n") 6 6 .insert (str "\n\nWorld\n\n") =
    { buffer := str "Hello\n\nWorld\n", error := none } := by decide

example : runAiEdit (str "Para1\n\n\nPara2\n") 6 6 .insert (str "Inserted paragraph") =
    { buffer := str "Para1\n\nInserted paragraph\n\nPara2\n", error := none } := by decide

example : runAiEdit (str "- A\n- B\n- Quiet space") 21 21 .insert
      (str "- Good lighting\n- Ergonomic chair") =
    { buffer := str "- A\n- B\n- Quiet space\n- Good lighting\n- Ergonomic chair",
      error := none } := by decide

/-!  Statement-side notions used to formalize the claims. -/

/-- One step of the spec's top-to-bottom fence scan: toggle on a boundary
line of the active marker style; a boundary of the other style is content. -/
def fenceFoldStep (st : Option Line) (l : Line) : Option Line :=
  match fenceMarker l, st with
  | some m, none => some m
  | some m, some f => if f = m then none else some f
  | none, st2 => st2

/-- Fence state after scanning the given lines top to bottom. -/
def scanState (dl : List Line) : Option Line :=
  dl.foldl fenceFoldStep none

/-- The document has an even number of fence-boundary lines. -/
def evenFenceCount (dl : List Line) : Prop :=
  (dl.filter isFence).length % 2 = 0

/-- Lines `a < b` form an enclosing fence pair: both are boundary lines, no
boundary line sits strictly between them, and an even number of boundary
lines precedes `a` (so `a` opens and `b` closes). -/
def isEnclosingFencePair (dl : List Line) (a b : Nat) : Prop :=
  isFence (dl.getD a []) = true ∧ isFence (dl.getD b []) = true ∧ a < b ∧ b < dl.length ∧
  (∀ j < b, a < j → isFence (dl.getD j []) = false) ∧
  ((dl.take a).filter isFence).length % 2 = 0

instance (dl : List Line) : Decidable (evenFenceCount dl) := by
  unfold evenFenceCount
  infer_instance

instance (dl : List Line) (a b : Nat) : Decidable (isEnclosingFencePair dl a b) := by
  unfold isEnclosingFencePair
  infer_instance

/-!  General lemmas about `splitNl` and `joinNl`. -/

theorem splitNl_ne_nil (cs : List Char) : splitNl cs ≠ [] := by
  cases cs with
  | nil => simp [splitNl]
  | cons c cs =>
    simp only [splitNl]
    split
    · simp
    · split <;> simp

theorem nl_not_mem_splitNl : ∀ (cs : List Char), ∀ l ∈ splitNl cs, '\n' ∉ l := by
  intro cs
  induction cs with
  | nil =>
    intro l hl
    simp [splitNl] at hl
    subst hl
    simp
  | cons c cs ih =>
    intro l hl
    by_cases hc : c = '\n'
    · subst hc
      have heq : splitNl ('\n' :: cs) = [] :: splitNl cs := by simp [splitNl]
      rw [heq] at hl
      rcases List.mem_cons.mp hl with h | h
      · subst h; simp
      · exact ih l h
    · simp only [splitNl, if_neg hc] at hl
      rcases hsp : splitNl cs with _ | ⟨m, ms⟩
      · exact absurd hsp (splitNl_ne_nil cs)
      · rw [hsp] at hl
        rcases List.mem_cons.mp hl with h | h
        · subst h
          intro hmem
          rcases List.mem_cons.mp hmem with h1 | h1
          · exact hc h1.symm
          · exact ih m (hsp ▸ List.mem_cons_self m ms) h1
        · exact ih l (hsp ▸ List.mem_cons_of_mem m h)

theorem splitNl_of_no_nl : ∀ (l : List Char), '\n' ∉ l → splitNl l = [l] := by
  intro l
  induction l with
  | nil => intro _; rfl
  | cons c cs ih =>
    intro h
    have hc : ¬(c = '\n') := fun hh => h (hh ▸ List.mem_cons_self c cs)
    have hcs : '\n' ∉ cs := fun hh => h (List.mem_cons_of_mem c hh)
    simp only [splitNl, if_neg hc, ih hcs]

theorem splitNl_append_nl : ∀ (l t : List Char), '\n' ∉ l →
    splitNl (l ++ '\n' :: t) = l :: splitNl t := by
  intro l
  induction l with
  | nil => intro t _; simp [splitNl]
  | cons c cs ih =>
    intro t h
    have hc : ¬(c = '\n') := fun hh => h (hh ▸ List.mem_cons_self c cs)
    have hcs : '\n' ∉ cs := fun hh => h (List.mem_cons_of_mem c hh)
    show (if c = '\n' then [] :: splitNl (cs ++ '\n' :: t)
          else match splitNl (cs ++ '\n' :: t) with
               | [] => [[c]]
               | l :: ls => (c :: l) :: ls) = (c :: cs) :: splitNl t
    rw [if_neg hc, ih t hcs]

theorem splitNl_joinNl : ∀ (ls : List (List Char)), ls ≠ [] →
    (∀ l ∈ ls, '\n' ∉ l) → splitNl (joinNl ls) = ls := by
  intro ls
  induction ls with
  | nil => intro h _; exact absurd rfl h
  | cons l rest ih =>
    intro _ hfree
    cases rest with
    | nil => exact splitNl_of_no_nl l (hfree l (List.mem_cons_self l []))
    | cons m ms =>
      have h1 : joinNl (l :: m :: ms) = l ++ '\n' :: joinNl (m :: ms) := rfl
      rw [h1, splitNl_append_nl l _ (hfree l (List.mem_cons_self l (m :: ms)))]
      rw [ih (by simp) (fun x hx => hfree x (List.mem_cons_of_mem l hx))]

/-!  Membership helpers: the classification helpers only rearrange characters
of their input, so they cannot introduce a newline. -/

theorem mem_of_mem_dropWhile {p : Char → Bool} {l : List Char} {x : Char}
    (h : x ∈ l.dropWhile p) : x ∈ l := by
  induction l with
  | nil => simp at h
  | cons c cs ih =>
    by_cases hc : p c
    · simp only [List.dropWhile_cons, hc, if_true] at h
      exact List.mem_cons_of_mem c (ih h)
    · simp only [List.dropWhile_cons, hc] at h
      simpa using h

theorem mem_of_mem_takeWhile {p : Char → Bool} {l : List Char} {x : Char}
    (h : x ∈ l.takeWhile p) : x ∈ l := by
  induction l with
  | nil => simp at h
  | cons c cs ih =>
    by_cases hc : p c
    · simp only [List.takeWhile_cons, hc, if_true] at h
      rcases List.mem_cons.mp h with h1 | h1
      · exact h1 ▸ List.mem_cons_self c cs
      · exact List.mem_cons_of_mem c (ih h1)
    · simp only [List.takeWhile_cons, hc] at h
      simp at h

theorem mem_of_mem_jsTrimEnd {l : List Char} {x : Char} (h : x ∈ jsTrimEnd l) : x ∈ l := by
  unfold jsTrimEnd at h
  rw [List.mem_reverse] at h
  exact List.mem_reverse.mp (mem_of_mem_dropWhile h)

theorem mem_of_mem_jsTrim {l : List Char} {x : Char} (h : x ∈ jsTrim l) : x ∈ l := by
  unfold jsTrim at h
  rw [List.mem_reverse] at h
  exact mem_of_mem_dropWhile (List.mem_reverse.mp (mem_of_mem_dropWhile h))

theorem matchListCore_mem {l ind mk a : Line} (h : matchListCore l = some (ind, mk, a)) :
    (∀ x ∈ ind, x ∈ l) ∧ (∀ x ∈ mk, x ∈ l) ∧ (∀ x ∈ a, x ∈ l) := by
  unfold matchListCore at h
  split at h
  · exact absurd h (by simp)
  · next c tl heq =>
    have hct : ∀ x ∈ c :: tl, x ∈ l := fun x hx => mem_of_mem_dropWhile (heq ▸ hx)
    split at h
    · simp only [Option.some_inj] at h
      injection h with h1 h23
      injection h23 with h2 h3
      subst h1; subst h2; subst h3
      refine ⟨fun x hx => mem_of_mem_takeWhile hx, ?_, ?_⟩
      · intro x hx
        rcases List.mem_cons.mp hx with h4 | h4
        · exact h4 ▸ hct c (List.mem_cons_self c tl)
        · simp at h4
      · intro x hx
        exact hct x (List.mem_cons_of_mem c hx)
    · split at h
      · split at h
        · next tl2 heq2 =>
          simp only [Option.some_inj] at h
          injection h with h1 h23
          injection h23 with h2 h3
          subst h1; subst h2; subst h3
          refine ⟨fun x hx => mem_of_mem_takeWhile hx, ?_, ?_⟩
          · intro x hx
            rcases List.mem_append.mp hx with h4 | h4
            · exact hct x (mem_of_mem_takeWhile h4)
            · have hx2 : x = '.' := by simpa using h4
              subst hx2
              have hdig : '.' ∈ (c :: tl).dropWhile Char.isDigit := by
                rw [heq2]; exact List.mem_cons_self '.' tl2
              exact hct '.' (mem_of_mem_dropWhile hdig)
          · intro x hx
            have hdig : x ∈ (c :: tl).dropWhile Char.isDigit := by
              rw [heq2]; exact List.mem_cons_of_mem '.' hx
            exact hct x (mem_of_mem_dropWhile hdig)
        · exact absurd h (by simp)
      · exact absurd h (by simp)

theorem nl_not_mem_strict {l ind mk ct : Line}
    (h : matchListMarkerStrict l = some (ind, mk, ct)) (hl : '\n' ∉ l) :
    '\n' ∉ ind ∧ '\n' ∉ mk ∧ '\n' ∉ ct := by
  unfold matchListMarkerStrict at h
  split at h
  · simp at h
  · next ind0 mk0 after heq =>
    split at h
    · simp at h
    · simp only [Option.some_inj] at h
      injection h with h1 h23
      injection h23 with h2 h3
      subst h1; subst h2; subst h3
      have hm := matchListCore_mem heq
      exact ⟨fun hx => hl (hm.1 _ hx), fun hx => hl (hm.2.1 _ hx),
        fun hx => hl (hm.2.2 _ (mem_of_mem_dropWhile hx))⟩

theorem nl_not_mem_normalizeListLine {bp si : Line} (hbp : '\n' ∉ bp) (hsi : '\n' ∉ si)
    (idx : Nat) {l : Line} (hl : '\n' ∉ l) : '\n' ∉ normalizeListLine bp si idx l := by
  unfold normalizeListLine
  split
  · intro hx; exact hbp (mem_of_mem_jsTrimEnd hx)
  · split
    · next ind mk ct heq =>
      obtain ⟨hind, hmk, hct⟩ := nl_not_mem_strict heq hl
      split
      · intro hx
        rcases List.mem_append.mp (mem_of_mem_jsTrimEnd hx) with h1 | h1
        · exact hbp h1
        · exact hct h1
      · intro hx
        have h0 := mem_of_mem_jsTrimEnd hx
        rcases List.mem_append.mp h0 with h1 | h1
        · rcases List.mem_append.mp h1 with h2 | h2
          · rcases List.mem_append.mp h2 with h3 | h3
            · rcases List.mem_append.mp h3 with h4 | h4
              · exact hsi h4
              · exact hind h4
            · exact hmk h3
          · simp at h2
        · exact hct h1
    · split
      · intro hx
        rcases List.mem_append.mp (mem_of_mem_jsTrimEnd hx) with h1 | h1
        · exact hbp h1
        · exact hl (mem_of_mem_jsTrim h1)
      · intro hx
        rcases List.mem_append.mp hx with h1 | h1
        · exact hbp h1
        · exact hl (mem_of_mem_jsTrimEnd h1)

theorem normLines_length (bp si : Line) :
    ∀ (idx : Nat) (ls : List Line), (normLines bp si idx ls).length = ls.length
  | _, [] => rfl
  | idx, l :: rest => by
    simp [normLines, normLines_length bp si (idx + 1) rest]

theorem nl_not_mem_normLines {bp si : Line} (hbp : '\n' ∉ bp) (hsi : '\n' ∉ si) :
    ∀ (idx : Nat) (ls : List Line), (∀ l ∈ ls, '\n' ∉ l) →
      ∀ l ∈ normLines bp si idx ls, '\n' ∉ l
  | _, [], _, l, hl => by simp [normLines] at hl
  | idx, x :: rest, hfree, l, hl => by
    simp only [normLines, List.mem_cons] at hl
    rcases hl with h | h
    · exact h ▸ nl_not_mem_normalizeListLine hbp hsi idx (hfree x (List.mem_cons_self x rest))
    · exact nl_not_mem_normLines hbp hsi (idx + 1) rest
        (fun y hy => hfree y (List.mem_cons_of_mem x hy)) l h

example : isInsideCodeFence (str "```\ncode\n```\nafter") 1 = true := by decide

example : isInsideCodeFence (str "```\ncode\n```\nafter") 3 = false := by decide

example : isInsideCodeFence (str "```\ncode") 1 = true := by decide

example : stripOuterCodeFence (str "```\nnewCall();\n```") = str "newCall();" := by decide

example : stripOuterCodeFence (str "```\nx\n```\n") = str "```\nx\n```\n" := by decide

example : findFenceBounds (splitNl (str "```\na\n```")) 1 = some (0, 2) := by decide

example : findFenceBounds (splitNl (str "```\na\n```\nx\n```\nb\n```")) 3 = some (2, 4) := by decide

example : findFenceBounds (splitNl (str "a\nb")) 1 = none := by decide

example : normalizeParagraphSpacing (str "Inserted paragraph")
    (splitNl (str "Para1\n\n\nPara2\n")) 1 = str "\nInserted paragraph" := by decide

example : normalizeListText (str "- Child\n  - Grandchild") (str "  ") ['-'] =
    str "  - Child\n    - Grandchild" := by decide

example : splitNl (str "a\nb") = [['a'], ['b']] := by decide

example : joinNl [['a'], ['b']] = str "a\nb" := by decide

example : jsTrim (str "  x ") = ['x'] := by decide

example : getListLineInfo (str "  - ") =
    some { pfx := str "  - ", indent := str "  ", marker := ['-'], isStub := true } := by decide

example : getListLineInfo (str "12. ab") =
    some { pfx := str "12. ", indent := [], marker := str "12.", isStub := false } := by decide

example : getListLineInfo (str "plain") = none := by decide

example : matchListMarkerStrict (str "  - Grandchild") =
    some (str "  ", ['-'], str "Grandchild") := by decide

example : matchListMarkerStrict (str "-x") = none := by decide

example : getBlockquotePrefix (str "> > a") = some (str "> ") := by decide

example : stripBq (str "> > a") = str "> a" := by decide

example : getBlockquotePrefix (str "  >>quote") = some (str "  >>") := by decide

example : fenceMarker (str "```lean") = some btickFence := by decide

example : fenceMarker (str "  ~~~") = some tildeFence := by decide

example : fenceMarker (str "``x") = none := by decide

/-- Claim C1: in insert mode on the document `"- Parent\n  - \n"` with the
cursor after the nested stub marker, model output `"- Child\n  - Grandchild"`
leaves the buffer `"- Parent\n  - Child\n    - Grandchild\n"`: the first
output line takes the stub's indent and marker, and the marker-bearing second
line is nested under the stub's indent compounded with its own indent. -/
theorem C1_insert_nested_stub :
    runAiEdit (str "- Parent\n  - \n") 13 13 .insert (str "- Child\n  - Grandchild") =
      { buffer := str "- Parent\n  - Child\n    - Grandchild\n", error := none } := by
  decide

/-- Claim C6 (amended): in replace mode with a non-empty selection the buffer
becomes the document with the selection range replaced by the generated text
verbatim; in the `part_001` variant the same holds whenever the text contains
a real newline (or no literal backslash-n), while a text without any real
newline first has every literal backslash-n converted to a newline. -/
theorem C6_replace_verbatim :
    (∀ (doc : Text) (s e : Nat) (content : Text),
        ((doc.take e).drop s).isEmpty = false →
        runAiEdit doc s e .replace content =
          { buffer := doc.take s ++ content ++ doc.drop e, error := none }) ∧
    (∀ (doc : Text) (s e : Nat) (content : Text),
        ((doc.take e).drop s).isEmpty = false →
        (content.contains '\n' = true ∨ hasBackslashN content = false) →
        runAiEditReplaceV1 doc s e content =
          { buffer := doc.take s ++ content ++ doc.drop e, error := none }) ∧
    (∀ (doc : Text) (s e : Nat) (content : Text),
        ((doc.take e).drop s).isEmpty = false →
        content.contains '\n' = false → hasBackslashN content = true →
        runAiEditReplaceV1 doc s e content =
          { buffer := doc.take s ++ replBackslashN content ++ doc.drop e, error := none }) := by
  refine ⟨?_, ?_, ?_⟩
  · intro doc s e content h
    simp [runAiEdit, h, splice]
  · intro doc s e content h hdisj
    have hcond : (!content.contains '\n' && hasBackslashN content) = false := by
      rcases hdisj with hc | hb
      · rw [hc]; rfl
      · rw [hb]; simp
    simp only [runAiEditReplaceV1, hcond]
    simp [h, splice]
  · intro doc s e content h hc hb
    have hcond : (!content.contains '\n' && hasBackslashN content) = true := by
      rw [hc, hb]; rfl
    simp only [runAiEditReplaceV1, hcond]
    simp [h, splice]

/-- Witness for claim C6 at a concrete replacement. -/
theorem C6_replace_verbatim_witness :
    runAiEdit (str "ab") 0 1 .replace (str "XY") =
      { buffer := (str "ab").take 0 ++ str "XY" ++ (str "ab").drop 1, error := none } :=
  C6_replace_verbatim.1 (str "ab") 0 1 (str "XY") (by decide)

/-- Counterexample for claim C6 as stated: the `part_001` variant rewrites a
returned text that has no real newline but contains literal backslash-n
sequences, so the selection is not replaced by the text exactly as returned. -/
theorem C6_replace_escaped_newline_cx :
    runAiEditReplaceV1 (str "ab") 0 1 (str "x\\ny") =
      { buffer := str "x\nyb", error := none } ∧
    (str "ab").take 0 ++ str "x\\ny" ++ (str "ab").drop 1 = str "x\\nyb" ∧
    str "x\nyb" ≠ str "x\\nyb" := by
  decide

/-- Claim C7: invoking the orchestrator in replace mode with an empty current
selection surfaces the mode error and leaves the buffer unchanged. -/
theorem C7_replace_empty_selection (doc : Text) (selStart selEnd : Nat) (content : Text)
    (h : ((doc.take selEnd).drop selStart).isEmpty = true) :
    runAiEdit doc selStart selEnd .replace content =
      { buffer := doc, error := some "Replace mode requires a selection." } := by
  simp [runAiEdit, h]

/-- Witness for claim C7 at a concrete empty-selection invocation. -/
theorem C7_replace_empty_selection_witness :
    runAiEdit (str "ab") 1 1 .replace (str "x") =
      { buffer := str "ab", error := some "Replace mode requires a selection." } :=
  C7_replace_empty_selection (str "ab") 1 1 (str "x") (by decide)

/-- Claim C10 (amended): `normalizeListText` preserves the number of
newline-separated lines whenever the stub indent and stub marker themselves
contain no newline character (as is the case for every indent and marker
captured from a document line). -/
theorem C10_normalizeListText_line_count (text stubIndent stubMarker : Text)
    (hi : '\n' ∉ stubIndent) (hmk : '\n' ∉ stubMarker) :
    (splitNl (normalizeListText text stubIndent stubMarker)).length =
      (splitNl text).length := by
  have hbp : '\n' ∉ stubIndent ++ stubMarker ++ [' '] := by
    intro hx
    rcases List.mem_append.mp hx with h1 | h1
    · rcases List.mem_append.mp h1 with h2 | h2
      · exact hi h2
      · exact hmk h2
    · simp at h1
  unfold normalizeListText
  have hlen := normLines_length (stubIndent ++ stubMarker ++ [' ']) stubIndent 0 (splitNl text)
  have hfree := nl_not_mem_normLines hbp hi 0 (splitNl text) (nl_not_mem_splitNl text)
  have hne : normLines (stubIndent ++ stubMarker ++ [' ']) stubIndent 0 (splitNl text) ≠ [] := by
    intro h0
    have h1 := hlen
    rw [h0] at h1
    exact splitNl_ne_nil text (List.length_eq_zero.mp h1.symm)
  rw [splitNl_joinNl _ hne hfree, hlen]

/-- Witness for claim C10 at a concrete two-line output. -/
theorem C10_normalizeListText_line_count_witness :
    (splitNl (normalizeListText (str "- a\n  - b") (str "  ") (str "-"))).length =
      (splitNl (str "- a\n  - b")).length :=
  C10_normalizeListText_line_count (str "- a\n  - b") (str "  ") (str "-")
    (by decide) (by decide)

/-- Counterexample for claim C10 as stated over every stub indent: a stub
indent containing a newline makes the output gain a line. -/
theorem C10_newline_stub_indent_cx :
    (splitNl (normalizeListText (str "a") (str "\n") (str "-"))).length = 2 ∧
    (splitNl (str "a")).length = 1 ∧ (2 : Nat) ≠ 1 := by
  decide

/-!  Behaviour of the two scans inside `findFenceBounds`. -/

theorem searchBack_eq_none (dl : List Line) :
    ∀ i, (∀ j, j ≤ i → isFence (dl.getD j []) = false) → searchBack dl i = none := by
  intro i
  induction i with
  | zero =>
    intro h
    rw [searchBack, if_neg (by rw [h 0 (le_refl 0)]; exact Bool.false_ne_true)]
  | succ i ih =>
    intro h
    rw [searchBack, if_neg (by rw [h (i + 1) (le_refl _)]; exact Bool.false_ne_true)]
    exact ih (fun j hj => h j (Nat.le_succ_of_le hj))

theorem searchBack_none_spec (dl : List Line) :
    ∀ i, searchBack dl i = none → ∀ j, j ≤ i → isFence (dl.getD j []) = false := by
  intro i
  induction i with
  | zero =>
    intro h j hj
    have hj0 : j = 0 := Nat.le_zero.mp hj
    subst hj0
    cases hf : isFence (dl.getD 0 []) with
    | true =>
      rw [searchBack, if_pos hf] at h
      exact absurd h (by simp)
    | false => rfl
  | succ i ih =>
    intro h j hj
    cases hf : isFence (dl.getD (i + 1) []) with
    | true =>
      rw [searchBack, if_pos hf] at h
      exact absurd h (by simp)
    | false =>
      rw [searchBack, if_neg (by rw [hf]; exact Bool.false_ne_true)] at h
      rcases Nat.eq_or_lt_of_le hj with h1 | h1
      · rw [h1]; exact hf
      · exact ih h j (Nat.lt_succ_iff.mp h1)

theorem searchBack_eq_some (dl : List Line) :
    ∀ i a, a ≤ i → isFence (dl.getD a []) = true →
      (∀ j, a < j → j ≤ i → isFence (dl.getD j []) = false) →
      searchBack dl i = some a := by
  intro i
  induction i with
  | zero =>
    intro a ha hf _
    have ha0 : a = 0 := Nat.le_zero.mp ha
    subst ha0
    rw [searchBack, if_pos hf]
  | succ i ih =>
    intro a ha hf hmid
    by_cases hcase : a = i + 1
    · subst hcase
      rw [searchBack, if_pos hf]
    · have ha' : a ≤ i := Nat.lt_succ_iff.mp (Nat.lt_of_le_of_ne ha hcase)
      have hfi : isFence (dl.getD (i + 1) []) = false :=
        hmid (i + 1) (Nat.lt_succ_of_le ha') (le_refl _)
      rw [searchBack, if_neg (by rw [hfi]; exact Bool.false_ne_true)]
      exact ih a ha' hf (fun j hj1 hj2 => hmid j hj1 (Nat.le_succ_of_le hj2))

theorem searchBack_some_spec (dl : List Line) :
    ∀ i a, searchBack dl i = some a → a ≤ i ∧ isFence (dl.getD a []) = true := by
  intro i
  induction i with
  | zero =>
    intro a h
    cases hf : isFence (dl.getD 0 []) with
    | true =>
      rw [searchBack, if_pos hf] at h
      injection h with h1
      subst h1
      exact ⟨le_refl _, hf⟩
    | false =>
      rw [searchBack, if_neg (by rw [hf]; exact Bool.false_ne_true)] at h
      exact absurd h (by simp)
  | succ i ih =>
    intro a h
    cases hf : isFence (dl.getD (i + 1) []) with
    | true =>
      rw [searchBack, if_pos hf] at h
      injection h with h1
      subst h1
      exact ⟨le_refl _, hf⟩
    | false =>
      rw [searchBack, if_neg (by rw [hf]; exact Bool.false_ne_true)] at h
      obtain ⟨h1, h2⟩ := ih a h
      exact ⟨Nat.le_succ_of_le h1, h2⟩

theorem searchFwd_eq_none : ∀ (rest : List Line) (i : Nat),
    (∀ k, k < rest.length → isFence (rest.getD k []) = false) → searchFwd rest i = none
  | [], _, _ => rfl
  | l :: tl, i, h => by
    have h0 : isFence l = false := by simpa using h 0 (by simp)
    rw [searchFwd, if_neg (by rw [h0]; exact Bool.false_ne_true)]
    exact searchFwd_eq_none tl (i + 1) (fun k hk => by simpa using h (k + 1) (by simpa using hk))

theorem searchFwd_none_spec : ∀ (rest : List Line) (i : Nat),
    searchFwd rest i = none → ∀ k, k < rest.length → isFence (rest.getD k []) = false
  | [], _, _, k, hk => absurd hk (by simp)
  | l :: tl, i, h, k, hk => by
    cases hf : isFence l with
    | true =>
      rw [searchFwd, if_pos hf] at h
      exact absurd h (by simp)
    | false =>
      rw [searchFwd, if_neg (by rw [hf]; exact Bool.false_ne_true)] at h
      cases k with
      | zero => simpa using hf
      | succ k =>
        have hrec := searchFwd_none_spec tl (i + 1) h k (by simpa using hk)
        simpa using hrec

theorem searchFwd_eq_some : ∀ (rest : List Line) (i k : Nat),
    k < rest.length → isFence (rest.getD k []) = true →
    (∀ j, j < k → isFence (rest.getD j []) = false) → searchFwd rest i = some (i + k)
  | [], _, k, hk, _, _ => absurd hk (by simp)
  | l :: tl, i, k, hk, hf, hpre => by
    cases k with
    | zero =>
      have h0 : isFence l = true := by simpa using hf
      rw [searchFwd, if_pos h0]
      simp
    | succ k =>
      have h0 : isFence l = false := by simpa using hpre 0 (Nat.succ_pos k)
      rw [searchFwd, if_neg (by rw [h0]; exact Bool.false_ne_true)]
      have harith : i + 1 + k = i + (k + 1) := by omega
      rw [← harith]
      exact searchFwd_eq_some tl (i + 1) k (by simpa using hk) (by simpa using hf)
        (fun j hj => by simpa using hpre (j + 1) (Nat.succ_lt_succ hj))

theorem searchFwd_some_spec : ∀ (rest : List Line) (i e : Nat),
    searchFwd rest i = some e →
    i ≤ e ∧ e - i < rest.length ∧ isFence (rest.getD (e - i) []) = true
  | [], i, e, h => by simp [searchFwd] at h
  | l :: tl, i, e, h => by
    cases hf : isFence l with
    | true =>
      rw [searchFwd, if_pos hf] at h
      injection h with h1
      subst h1
      exact ⟨le_refl _, by simp, by simpa using hf⟩
    | false =>
      rw [searchFwd, if_neg (by rw [hf]; exact Bool.false_ne_true)] at h
      obtain ⟨h1, h2, h3⟩ := searchFwd_some_spec tl (i + 1) e h
      refine ⟨by omega, by simp only [List.length_cons]; omega, ?_⟩
      have harith : e - i = (e - (i + 1)) + 1 := by omega
      rw [harith]
      simpa using h3

theorem getD_drop (dl : List Line) : ∀ (i j : Nat), (dl.drop i).getD j [] = dl.getD (i + j) [] := by
  induction dl with
  | nil => intro i j; simp
  | cons a tl ih =>
    intro i j
    cases i with
    | zero => simp
    | succ i =>
      have harith : i + 1 + j = (i + j) + 1 := by omega
      rw [List.drop_succ_cons, harith, List.getD_cons_succ]
      exact ih i j

theorem findFenceBounds_none_of_fwd_none {dl : List Line} {idx : Nat}
    (h : searchFwd (dl.drop idx) idx = none) : findFenceBounds dl idx = none := by
  cases hb : searchBack dl idx with
  | none => simp only [findFenceBounds, hb]
  | some s => simp only [findFenceBounds, hb, h]

/-- Claim C2 (amended): for a line index strictly inside an enclosing fence
pair, `findFenceBounds` returns exactly that pair, so `start ≤ lineIndex ≤ end`
with `start ≠ end`; and it returns `null` exactly when no fence-boundary line
exists at or before the index, or none exists at or after it within the
document, or the index itself is a fence-boundary line.  In particular an
index lying between two fence pairs gets non-null bounds, not `null`. -/
theorem C2_findFenceBounds_characterization :
    (∀ (dl : List Line) (a b idx : Nat), evenFenceCount dl → isEnclosingFencePair dl a b →
        a < idx → idx < b →
        findFenceBounds dl idx = some (a, b) ∧ a ≤ idx ∧ idx ≤ b ∧ a ≠ b) ∧
    (∀ (dl : List Line) (idx : Nat),
        findFenceBounds dl idx = none ↔
          ((∀ j, j ≤ idx → isFence (dl.getD j []) = false) ∨
           (∀ j, j < dl.length → idx ≤ j → isFence (dl.getD j []) = false) ∨
           isFence (dl.getD idx []) = true)) := by
  constructor
  · intro dl a b idx _ hpair hai hib
    obtain ⟨hfa, hfb, hab, hblen, hmid, _⟩ := hpair
    have hback : searchBack dl idx = some a := by
      apply searchBack_eq_some dl idx a (le_of_lt hai) hfa
      intro j hj1 hj2
      exact hmid j (lt_of_le_of_lt hj2 hib) hj1
    have hfwd : searchFwd (dl.drop idx) idx = some (idx + (b - idx)) := by
      apply searchFwd_eq_some
      · rw [List.length_drop]; omega
      · rw [getD_drop]
        have harith : idx + (b - idx) = b := by omega
        rw [harith]; exact hfb
      · intro j hj
        rw [getD_drop]
        exact hmid (idx + j) (by omega) (by omega)
    have harith : idx + (b - idx) = b := by omega
    rw [harith] at hfwd
    refine ⟨?_, le_of_lt hai, le_of_lt hib, by omega⟩
    simp only [findFenceBounds, hback, hfwd]
    rw [if_neg (by omega : ¬(b = a))]
  · intro dl idx
    constructor
    · intro h
      cases hb : searchBack dl idx with
      | none =>
        exact Or.inl (searchBack_none_spec dl idx hb)
      | some s =>
        cases hf : searchFwd (dl.drop idx) idx with
        | none =>
          refine Or.inr (Or.inl ?_)
          intro j hjlen hij
          have hspec := searchFwd_none_spec (dl.drop idx) idx hf (j - idx)
            (by rw [List.length_drop]; omega)
          rw [getD_drop] at hspec
          have harith : idx + (j - idx) = j := by omega
          rwa [harith] at hspec
        | some e =>
          by_cases hes : e = s
          · refine Or.inr (Or.inr ?_)
            obtain ⟨hs1, _⟩ := searchBack_some_spec dl idx s hb
            obtain ⟨he1, _, he3⟩ := searchFwd_some_spec (dl.drop idx) idx e hf
            rw [getD_drop] at he3
            have harith : idx + (e - idx) = idx := by omega
            rwa [harith] at he3
          · exfalso
            simp only [findFenceBounds, hb, hf] at h
            rw [if_neg hes] at h
            exact absurd h (by simp)
    · intro h
      rcases h with h | h | h
      · simp only [findFenceBounds, searchBack_eq_none dl idx h]
      · apply findFenceBounds_none_of_fwd_none
        apply searchFwd_eq_none
        intro k hk
        rw [getD_drop]
        rw [List.length_drop] at hk
        exact h (idx + k) (by omega) (by omega)
      · have hlt : idx < dl.length := by
          by_contra hc
          have hdef : dl.getD idx [] = [] := List.getD_eq_default _ _ (by omega)
          rw [hdef] at h
          simp [isFence, fenceMarker] at h
        have hback : searchBack dl idx = some idx := by
          apply searchBack_eq_some dl idx idx (le_refl _) h
          intro j hj1 hj2
          exact absurd hj1 (by omega)
        have hfwd : searchFwd (dl.drop idx) idx = some (idx + 0) := by
          apply searchFwd_eq_some
          · rw [List.length_drop]; omega
          · rw [getD_drop]; exact h
          · intro j hj
            exact absurd hj (by omega)
        rw [Nat.add_zero] at hfwd
        simp [findFenceBounds, hback, hfwd]

/-- Witness for claim C2: a line strictly inside the only fence pair. -/
theorem C2_findFenceBounds_characterization_witness :
    findFenceBounds (splitNl (str "```\na\n```")) 1 = some (0, 2) ∧
    0 ≤ 1 ∧ 1 ≤ 2 ∧ 0 ≠ 2 :=
  C2_findFenceBounds_characterization.1 (splitNl (str "```\na\n```")) 0 2 1
    (by decide) (by decide) (by decide) (by decide)

/-- Counterexample for claim C2 as stated: in the well-formed document
`"```\na\n```\nx\n```\nb\n```"` the index 3 lies strictly inside no enclosing
fence pair, yet `findFenceBounds` returns bounds `(2, 4)` instead of `null`. -/
theorem C2_between_pairs_cx :
    evenFenceCount (splitNl (str "```\na\n```\nx\n```\nb\n```")) ∧
    (∀ b0, b0 < 7 → ∀ a0, a0 < 7 →
        isEnclosingFencePair (splitNl (str "```\na\n```\nx\n```\nb\n```")) a0 b0 →
        ¬(a0 < 3 ∧ 3 < b0)) ∧
    findFenceBounds (splitNl (str "```\na\n```\nx\n```\nb\n```")) 3 = some (2, 4) ∧
    some (2, 4) ≠ (none : Option (Nat × Nat)) := by
  decide

/-!  The `isInsideCodeFence` loop against the whole-document fence scan. -/

theorem fenceMarker_eq_none_of_not_isFence {l : Line} (h : isFence l = false) :
    fenceMarker l = none := by
  unfold isFence at h
  cases hm : fenceMarker l with
  | none => rfl
  | some m => rw [hm] at h; simp at h

theorem insideFenceLoop_of_scan_open : ∀ (rest : List Line) (i cur : Nat) (st : Option Line),
    i ≤ cur → cur - i < rest.length →
    (List.foldl fenceFoldStep st (rest.take (cur - i + 1))).isSome = true →
    insideFenceLoop rest i cur st = true
  | [], _, _, _, _, hlen, _ => absurd hlen (by simp)
  | l :: tl, i, cur, st, hic, hlen, hopen => by
    by_cases hcur : i = cur
    · subst hcur
      rw [Nat.sub_self] at hopen
      simp only [List.take_succ_cons, List.take_zero, List.foldl_cons, List.foldl_nil] at hopen
      cases hm : fenceMarker l with
      | some m =>
        cases st with
        | none => simp [insideFenceLoop, hm]
        | some f =>
          by_cases hfm : f = m
          · simp [insideFenceLoop, hm, hfm]
          · simp [insideFenceLoop, hm, hfm]
      | none =>
        have hstep : fenceFoldStep st l = st := by simp [fenceFoldStep, hm]
        rw [hstep] at hopen
        simpa [insideFenceLoop, hm] using hopen
    · have hic' : i + 1 ≤ cur := by omega
      have hlen' : cur - (i + 1) < tl.length := by
        simp only [List.length_cons] at hlen
        omega
      have harith : cur - i + 1 = (cur - (i + 1) + 1) + 1 := by omega
      rw [harith] at hopen
      simp only [List.take_succ_cons, List.foldl_cons] at hopen
      have hrec := insideFenceLoop_of_scan_open tl (i + 1) cur (fenceFoldStep st l) hic' hlen' hopen
      cases hm : fenceMarker l with
      | some m =>
        cases st with
        | none =>
          have hstep : fenceFoldStep none l = some m := by simp [fenceFoldStep, hm]
          rw [hstep] at hrec
          simp only [insideFenceLoop, hm, if_neg hcur]
          exact hrec
        | some f =>
          by_cases hfm : f = m
          · subst hfm
            have hle : ¬(cur ≤ i) := by omega
            have hstep : fenceFoldStep (some f) l = none := by simp [fenceFoldStep, hm]
            rw [hstep] at hrec
            simp only [insideFenceLoop, hm, if_pos rfl, if_neg hle]
            exact hrec
          · have hstep : fenceFoldStep (some f) l = some f := by simp [fenceFoldStep, hm, hfm]
            rw [hstep] at hrec
            simp only [insideFenceLoop, hm, if_neg hfm, if_neg hcur]
            exact hrec
      | none =>
        have hstep : fenceFoldStep st l = st := by simp [fenceFoldStep, hm]
        rw [hstep] at hrec
        simp only [insideFenceLoop, hm, if_neg hcur]
        exact hrec

theorem insideFenceLoop_no_fence : ∀ (rest : List Line) (i cur : Nat),
    i ≤ cur → cur - i < rest.length →
    (∀ k, k ≤ cur - i → fenceMarker (rest.getD k []) = none) →
    insideFenceLoop rest i cur none = false
  | [], _, _, _, hlen, _ => absurd hlen (by simp)
  | l :: tl, i, cur, hic, hlen, hnf => by
    have hm : fenceMarker l = none := by simpa using hnf 0 (by omega)
    by_cases hcur : i = cur
    · simp [insideFenceLoop, hm, hcur]
    · have hrec := insideFenceLoop_no_fence tl (i + 1) cur (by omega)
        (by simp only [List.length_cons] at hlen; omega)
        (fun k hk => by
          have hx := hnf (k + 1) (by omega)
          simpa using hx)
      simp only [insideFenceLoop, hm, if_neg hcur]
      exact hrec

/-- Claim C8 (amended): for a line covered by an open (unterminated) fence —
the top-to-bottom scan is open at that line and no fence-boundary line exists
at or after it — fence detection does not report "not inside": both
`isInsideCodeFence` and the insert path's inside-fence determination yield
`true`; detection is total and never throws. -/
theorem C8_unterminated_fence_inside (doc : Text) (cur : Nat)
    (hlt : cur < (splitNl doc).length)
    (hopen : (scanState ((splitNl doc).take (cur + 1))).isSome = true)
    (hafter : ∀ j, j < (splitNl doc).length → cur ≤ j →
        isFence ((splitNl doc).getD j []) = false) :
    isInsideCodeFence doc cur = true ∧ insideFenceOf doc cur = true := by
  have h1 : isInsideCodeFence doc cur = true := by
    unfold isInsideCodeFence
    apply insideFenceLoop_of_scan_open (splitNl doc) 0 cur none (Nat.zero_le _) (by omega)
    rw [Nat.sub_zero]
    exact hopen
  have hfb : findFenceBounds (splitNl doc) cur = none := by
    apply findFenceBounds_none_of_fwd_none
    apply searchFwd_eq_none
    intro k hk
    rw [getD_drop]
    rw [List.length_drop] at hk
    exact hafter (cur + k) (by omega) (by omega)
  exact ⟨h1, by simp [insideFenceOf, hfb, h1]⟩

/-- Witness for claim C8 on the document with an unterminated opening fence. -/
theorem C8_unterminated_fence_inside_witness :
    isInsideCodeFence (str "```\ncode") 1 = true ∧
    insideFenceOf (str "```\ncode") 1 = true :=
  C8_unterminated_fence_inside (str "```\ncode") 1 (by decide) (by decide) (by decide)

/-- Counterexample for claim C8 as stated: in the malformed document
`"```\ncode"` (one fence-boundary line, odd count) line 1 is covered only by
the unterminated open fence, yet detection reports it as inside a fence
(`true`), not `false` as the claim requires. -/
theorem C8_unterminated_fence_cx :
    ((splitNl (str "```\ncode")).filter isFence).length = 1 ∧
    (scanState (splitNl (str "```\ncode"))).isSome = true ∧
    isInsideCodeFence (str "```\ncode") 1 = true ∧
    insideFenceOf (str "```\ncode") 1 = true ∧
    isInsideCodeFence (str "```\ncode") 1 ≠ false := by
  decide

/-- Claim C9 (amended): when the insertion line is blank, the next line is a
fence-boundary line, and no fence-boundary line exists at or above the
insertion line, both fence searches find nothing, yet the insert path treats
the point as inside a fence: outer fence markers are stripped from the output
and the blank line (with its newline) is replaced by the output with a
trailing newline appended when absent (at least one, not always exactly one). -/
theorem C9_blank_before_fence_heuristic (doc : Text) (line ch : Nat) (content : Text)
    (hblank : (jsTrim ((splitNl doc).getD line [])).isEmpty = true)
    (hlen : line + 1 < (splitNl doc).length)
    (hnext : isFence ((splitNl doc).getD (line + 1) []) = true)
    (habove : ∀ j, j ≤ line → isFence ((splitNl doc).getD j []) = false) :
    findFenceBounds (splitNl doc) line = none ∧
    isInsideCodeFence doc line = false ∧
    runAiEditInsert doc line ch content =
      splice doc (posToOffset (splitNl doc) line 0) (posToOffset (splitNl doc) (line + 1) 0)
        (ensureTrailingNl (stripOuterCodeFence (finalContent0 doc line ch content))) := by
  have hfb : findFenceBounds (splitNl doc) line = none := by
    simp only [findFenceBounds, searchBack_eq_none (splitNl doc) line habove]
  have hinside : isInsideCodeFence doc line = false := by
    unfold isInsideCodeFence
    apply insideFenceLoop_no_fence (splitNl doc) 0 line (Nat.zero_le _) (by omega)
    intro k hk
    rw [Nat.sub_zero] at hk
    exact fenceMarker_eq_none_of_not_isFence (habove k hk)
  have hif : insideFenceOf doc line = true := by
    simp only [insideFenceOf, hfb]
    rw [hinside, hblank, hnext]
    rfl
  refine ⟨hfb, hinside, ?_⟩
  unfold runAiEditInsert
  rw [hif, if_pos rfl]
  unfold fenceBranch
  rw [if_pos (by rw [hblank]; simp [hlen])]

/-- Witness for claim C9 at a concrete blank-line-before-fence insertion. -/
theorem C9_blank_before_fence_heuristic_witness :
    runAiEditInsert (str "  \n```\nx\n```") 0 0 (str "hello") =
      splice (str "  \n```\nx\n```") (posToOffset (splitNl (str "  \n```\nx\n```")) 0 0)
        (posToOffset (splitNl (str "  \n```\nx\n```")) 1 0)
        (ensureTrailingNl (stripOuterCodeFence
          (finalContent0 (str "  \n```\nx\n```") 0 0 (str "hello")))) :=
  (C9_blank_before_fence_heuristic (str "  \n```\nx\n```") 0 0 (str "hello")
    (by decide) (by decide) (by decide) (by decide)).2.2

/-- Counterexample for claim C9 as stated: an output already ending in two
newlines is written with both of them, so the blank line is not replaced by
the output with exactly one trailing newline. -/
theorem C9_two_trailing_newlines_cx :
    (jsTrim ((splitNl (str "  \n```\nx\n```")).getD 0 [])).isEmpty = true ∧
    isFence ((splitNl (str "  \n```\nx\n```")).getD 1 []) = true ∧
    (∀ j, j ≤ 0 → isFence ((splitNl (str "  \n```\nx\n```")).getD j []) = false) ∧
    runAiEditInsert (str "  \n```\nx\n```") 0 0 (str "a\n\n") = str "a\n\n```\nx\n```" ∧
    str "a\n\n```\nx\n```" ≠ str "a\n```\nx\n```" := by
  decide

/-!  Outer-fence stripping. -/

theorem stripOuterCodeFence_of_outer (t : Text) (m : Line)
    (hlen : 2 ≤ (splitNl t).length)
    (hfirst : fenceMarker ((splitNl t).headD []) = some m)
    (hlast : fenceMarker ((splitNl t).getLastD []) = some m) :
    stripOuterCodeFence t = joinNl (((splitNl t).drop 1).dropLast) := by
  simp only [stripOuterCodeFence]
  rw [if_neg (by omega : ¬((splitNl t).length < 2))]
  simp only [hfirst, hlast]
  simp

/-- Claim C3 (amended): on an insertion the insert path treats as inside a
fence, when the boundary-trimmed output's first and last lines (literally its
first and last lines, empty lines included — not its first and last non-empty
lines) are fence-boundary lines of the same marker style, the text written is
derived from the output with exactly those two lines dropped. -/
theorem C3_outer_fence_dropped (doc : Text) (line ch : Nat) (content : Text) (m : Line)
    (hin : insideFenceOf doc line = true)
    (hlen : 2 ≤ (splitNl (finalContent0 doc line ch content)).length)
    (hfirst : fenceMarker ((splitNl (finalContent0 doc line ch content)).headD []) = some m)
    (hlast : fenceMarker ((splitNl (finalContent0 doc line ch content)).getLastD []) = some m) :
    runAiEditInsert doc line ch content =
      fenceBranch doc line
        (joinNl (((splitNl (finalContent0 doc line ch content)).drop 1).dropLast)) := by
  unfold runAiEditInsert
  rw [hin, if_pos rfl]
  rw [stripOuterCodeFence_of_outer _ m hlen hfirst hlast]

/-- Witness for claim C3 at a concrete in-fence insertion. -/
theorem C3_outer_fence_dropped_witness :
    runAiEditInsert (str "```\na\n```") 1 0 (str "```\nX\n```") =
      fenceBranch (str "```\na\n```") 1
        (joinNl (((splitNl (finalContent0 (str "```\na\n```") 1 0
          (str "```\nX\n```"))).drop 1).dropLast)) :=
  C3_outer_fence_dropped (str "```\na\n```") 1 0 (str "```\nX\n```") btickFence
    (by decide) (by decide) (by decide) (by decide)

/-- Counterexample for claim C3 as stated: inside the fence of
`"```\nab\n```\n"`, an output whose first and last NON-EMPTY lines are both
backtick fences (but whose literal last line is empty) keeps both fence
lines — they are not dropped before the write. -/
theorem C3_nonempty_line_fences_kept_cx :
    insideFenceOf (str "```\nab\n```\n") 1 = true ∧
    fenceMarker (((splitNl (str "```\nX\n```\n")).filter
      (fun l => !l.isEmpty)).headD []) = some btickFence ∧
    fenceMarker (((splitNl (str "```\nX\n```\n")).filter
      (fun l => !l.isEmpty)).getLastD []) = some btickFence ∧
    runAiEditInsert (str "```\nab\n```\n") 1 1 (str "```\nX\n```\n") =
      str "```\nab\n```\nX\n```\n```\n" ∧
    str "```\nab\n```\nX\n```\n```\n" ≠ str "```\nab\nX\n```\n" := by
  decide

/-!  Decomposition of the paragraph-spacing passes on an output of the shape
`"\n"^a ++ core ++ "\n"^b` with a core that starts and ends off a newline. -/

theorem npsAddLead_true_of_head_nl {X : Text} (h : X.head? = some '\n') :
    npsAddLead true X = X := by
  unfold npsAddLead
  rw [h]
  simp

theorem npsAddLead_true_of_head_ne {X : Text} (h : X.head? ≠ some '\n') :
    npsAddLead true X = '\n' :: X := by
  unfold npsAddLead
  rw [if_pos (by simp [h])]

theorem npsAddLead_false (X : Text) : npsAddLead false X = X := by
  unfold npsAddLead
  simp

theorem npsAddTrail_true_of_last_nl {X : Text} (h : X.getLast? = some '\n') :
    npsAddTrail true X = X := by
  unfold npsAddTrail
  rw [h]
  simp

theorem npsAddTrail_true_of_last_ne {X : Text} (h : X.getLast? ≠ some '\n') :
    npsAddTrail true X = X ++ ['\n'] := by
  unfold npsAddTrail
  rw [if_pos (by simp [h])]

theorem npsAddTrail_false (X : Text) : npsAddTrail false X = X := by
  unfold npsAddTrail
  simp

theorem dropWhileNl_decomp (a : Nat) (core t : Text) (hne : core ≠ [])
    (hhd : core.head? ≠ some '\n') :
    (List.replicate a '\n' ++ core ++ t).dropWhile (fun c => c = '\n') = core ++ t := by
  induction a with
  | zero =>
    rcases core with _ | ⟨c, cs⟩
    · exact absurd rfl hne
    · have hc : ¬(c = '\n') := by simpa using hhd
      simp only [List.replicate_zero, List.nil_append, List.cons_append, List.dropWhile_cons]
      simp [hc]
  | succ a ih =>
    simp only [List.replicate_succ, List.cons_append, List.dropWhile_cons]
    simpa using ih

theorem getLast?_append_right (l1 l2 : Text) (h : l2 ≠ []) :
    (l1 ++ l2).getLast? = l2.getLast? := by
  rcases hrev : l2.reverse with _ | ⟨x, xs⟩
  · exact absurd (List.reverse_eq_nil_iff.mp hrev) h
  · rw [← List.head?_reverse, List.reverse_append, hrev, ← List.head?_reverse l2, hrev]
    simp

theorem collapseLeadNl_decomp (a : Nat) (core t : Text) (hne : core ≠ [])
    (hhd : core.head? ≠ some '\n') :
    collapseLeadNl (List.replicate a '\n' ++ core ++ t) =
      List.replicate (min a 1) '\n' ++ core ++ t := by
  rcases a with _ | a
  · rcases core with _ | ⟨c, cs⟩
    · exact absurd rfl hne
    · have hc : ¬(c = '\n') := by simpa using hhd
      unfold collapseLeadNl
      rw [if_neg (by simp [hc])]
      rw [show (0 : Nat) ⊓ 1 = 0 from by omega]
  · unfold collapseLeadNl
    rw [if_pos (by simp [List.replicate_succ])]
    rw [dropWhileNl_decomp (a + 1) core t hne hhd]
    have hmin : min (a + 1) 1 = 1 := by omega
    rw [hmin]
    simp

theorem collapseTrailNl_decomp (a b : Nat) (core : Text) (hne : core ≠ [])
    (hlast : core.getLast? ≠ some '\n') :
    collapseTrailNl (List.replicate a '\n' ++ core ++ List.replicate b '\n') =
      List.replicate a '\n' ++ core ++ List.replicate (min b 1) '\n' := by
  unfold collapseTrailNl
  have hrev : (List.replicate a '\n' ++ core ++ List.replicate b '\n').reverse =
      List.replicate b '\n' ++ core.reverse ++ List.replicate a '\n' := by
    simp [List.reverse_append, List.reverse_replicate, List.append_assoc]
  rw [hrev]
  rw [collapseLeadNl_decomp b core.reverse (List.replicate a '\n') (by simpa using hne)
    (by rw [List.head?_reverse]; exact hlast)]
  simp [List.reverse_append, List.reverse_replicate, List.append_assoc]

theorem npsCore_prevText (a b : Nat) (core : Text) (nT : Bool)
    (hne : core ≠ []) (hhd : core.head? ≠ some '\n') (hlast : core.getLast? ≠ some '\n') :
    npsCore (List.replicate a '\n' ++ core ++ List.replicate b '\n') true nT =
      '\n' :: (core ++ (if nT then ['\n'] else List.replicate (min b 1) '\n')) := by
  unfold npsCore
  rw [if_pos rfl]
  rw [collapseLeadNl_decomp a core (List.replicate b '\n') hne hhd]
  rw [collapseTrailNl_decomp (min a 1) b core hne hlast]
  have hlead : npsAddLead true
      (List.replicate (min a 1) '\n' ++ core ++ List.replicate (min b 1) '\n') =
      '\n' :: (core ++ List.replicate (min b 1) '\n') := by
    rcases a with _ | a
    · have hmin : min 0 1 = 0 := by omega
      rw [hmin]
      rcases core with _ | ⟨c, cs⟩
      · exact absurd rfl hne
      · have hc : ¬(c = '\n') := by simpa using hhd
        rw [npsAddLead_true_of_head_ne (by simp [hc])]
        simp
    · have hmin : min (a + 1) 1 = 1 := by omega
      rw [hmin]
      rw [npsAddLead_true_of_head_nl (by simp [List.replicate_succ])]
      simp
  rw [hlead]
  cases nT with
  | false =>
    rw [npsAddTrail_false]
    simp
  | true =>
    rcases b with _ | b
    · have hmin : min 0 1 = 0 := by omega
      rw [hmin]
      rw [npsAddTrail_true_of_last_ne ?hlastne]
      case hlastne =>
        simp only [List.replicate_zero, List.append_nil]
        rw [show ('\n' :: core : Text) = ['\n'] ++ core from rfl]
        rw [getLast?_append_right _ _ hne]
        exact hlast
      simp
    · have hmin : min (b + 1) 1 = 1 := by omega
      rw [hmin]
      rw [npsAddTrail_true_of_last_nl ?hlastnl]
      case hlastnl =>
        rw [show ('\n' :: (core ++ List.replicate 1 '\n') : Text) =
          ('\n' :: core) ++ ['\n'] from by simp]
        rw [getLast?_append_right _ _ (by simp)]
        rfl
      simp

theorem npsCore_prevBlank (a b : Nat) (core : Text)
    (hne : core ≠ []) (hlast : core.getLast? ≠ some '\n') :
    npsCore (List.replicate a '\n' ++ core ++ List.replicate b '\n') false true =
      List.replicate a '\n' ++ core ++ ['\n'] := by
  unfold npsCore
  rw [if_neg (by simp)]
  rw [collapseTrailNl_decomp a b core hne hlast]
  rw [npsAddLead_false]
  rcases b with _ | b
  · have hmin : min 0 1 = 0 := by omega
    rw [hmin]
    rw [npsAddTrail_true_of_last_ne ?hne0]
    case hne0 =>
      simp only [List.replicate_zero, List.append_nil]
      rw [getLast?_append_right _ _ hne]
      exact hlast
    simp
  · have hmin : min (b + 1) 1 = 1 := by omega
    rw [hmin]
    rw [npsAddTrail_true_of_last_nl ?hnl1]
    case hnl1 =>
      rw [show (List.replicate 1 '\n' : Text) = ['\n'] from rfl]
      rw [getLast?_append_right _ _ (by simp)]
      rfl
    rfl

/-- Claim C4 (amended): with a blank insertion line, paragraph-spacing
normalization leaves the output untouched when both adjacent lines are blank;
with a non-blank previous line it collapses the leading run to exactly one
newline and the trailing run to exactly one (next line non-blank) or at most
one (next line blank, nothing added when no trailing newline was present);
with a blank previous line and non-blank next line the leading run is left
unchanged — not collapsed to zero — and the trailing run becomes exactly one
newline. -/
theorem C4_paragraph_spacing (docLines : List Line) (idx a b : Nat) (core : Text)
    (hne : core ≠ []) (hhd : core.head? ≠ some '\n') (hlast : core.getLast? ≠ some '\n')
    (hblank : (jsTrim (docLines.getD idx [])).isEmpty = true) :
    (prevHasText docLines idx = false → nextHasText docLines idx = false →
        normalizeParagraphSpacing (List.replicate a '\n' ++ core ++ List.replicate b '\n')
          docLines idx = List.replicate a '\n' ++ core ++ List.replicate b '\n') ∧
    (prevHasText docLines idx = true →
        normalizeParagraphSpacing (List.replicate a '\n' ++ core ++ List.replicate b '\n')
          docLines idx =
          '\n' :: (core ++ (if nextHasText docLines idx then ['\n']
            else List.replicate (min b 1) '\n'))) ∧
    (prevHasText docLines idx = false → nextHasText docLines idx = true →
        normalizeParagraphSpacing (List.replicate a '\n' ++ core ++ List.replicate b '\n')
          docLines idx = List.replicate a '\n' ++ core ++ ['\n']) := by
  refine ⟨?_, ?_, ?_⟩
  · intro hp hn
    unfold normalizeParagraphSpacing
    rw [if_pos hblank, if_pos (by rw [hp, hn]; rfl)]
  · intro hp
    unfold normalizeParagraphSpacing
    rw [if_pos hblank, if_neg (by rw [hp]; simp)]
    rw [hp]
    exact npsCore_prevText a b core (nextHasText docLines idx) hne hhd hlast
  · intro hp hn
    unfold normalizeParagraphSpacing
    rw [if_pos hblank, if_neg (by rw [hn]; simp)]
    rw [hp, hn]
    exact npsCore_prevBlank a b core hne hlast

/-- Witness for claim C4: blank line below `"Para1"`, blank line above
`"Para2"` two lines later. -/
theorem C4_paragraph_spacing_witness :
    normalizeParagraphSpacing (List.replicate 0 '\n' ++ str "X" ++ List.replicate 0 '\n')
      (splitNl (str "Para1\n\n\nPara2\n")) 1 =
      '\n' :: (str "X" ++ (if nextHasText (splitNl (str "Para1\n\n\nPara2\n")) 1 then ['\n']
        else List.replicate (min 0 1) '\n')) :=
  (C4_paragraph_spacing (splitNl (str "Para1\n\n\nPara2\n")) 1 0 0 (str "X")
    (by decide) (by decide) (by decide) (by decide)).2.1 (by decide)

/-- Counterexample for claim C4 as stated: with a blank previous line the
leading blank-line run is NOT collapsed to zero newlines — it is left
untouched (and in insert mode the pipeline then writes it out as-is). -/
theorem C4_leading_run_kept_cx :
    (jsTrim ((splitNl (str "\n   \nPara2\n")).getD 1 [])).isEmpty = true ∧
    prevHasText (splitNl (str "\n   \nPara2\n")) 1 = false ∧
    nextHasText (splitNl (str "\n   \nPara2\n")) 1 = true ∧
    normalizeParagraphSpacing (str "\n\nX") (splitNl (str "\n   \nPara2\n")) 1 =
      str "\n\nX\n" ∧
    str "\n\nX\n" ≠ str "X\n" ∧
    runAiEditInsert (str "\n   \nPara2\n") 1 1 (str "\n\nX") = str "\n \n\nX\n  \nPara2\n" := by
  decide

/-- Claim C5 (amended): for a single line (no embedded newline) matching the
blockquote pattern whose remainder after stripping the captured prefix does
not itself still match the pattern (un-nested quotes), stripping and then
reapplying the captured prefix via `applyBlockquotePrefix` reproduces the
original line exactly — in particular it differs only in trailing whitespace. -/
theorem C5_blockquote_roundtrip (line p : Line)
    (hnl : '\n' ∉ line)
    (hp : getBlockquotePrefix line = some p)
    (hnested : getBlockquotePrefix (stripBq line) = none) :
    applyBlockquotePrefix (stripBq line) p = line := by
  unfold getBlockquotePrefix at hp
  rcases hmap : bqMatchLen line with _ | n
  · rw [hmap] at hp
    simp at hp
  · rw [hmap] at hp
    simp only [Option.map_some', Option.some_inj] at hp
    have hstrip : stripBq line = line.drop n := by
      unfold stripBq
      rw [hmap]
    have hnone : bqMatchLen (line.drop n) = none := by
      unfold getBlockquotePrefix at hnested
      rw [hstrip] at hnested
      rcases hmm : bqMatchLen (line.drop n) with _ | k
      · rfl
      · rw [hmm] at hnested
        simp at hnested
    have hid : stripBq (line.drop n) = line.drop n := by
      unfold stripBq
      rw [hnone]
    have hnodrop : '\n' ∉ line.drop n := fun hx => hnl (List.mem_of_mem_drop hx)
    rw [hstrip]
    unfold applyBlockquotePrefix
    rw [splitNl_of_no_nl _ hnodrop]
    simp only [List.map_cons, List.map_nil]
    rw [hid]
    show p ++ line.drop n = line
    rw [← hp]
    exact List.take_append_drop n line

/-- Witness for claim C5 on an un-nested quote line. -/
theorem C5_blockquote_roundtrip_witness :
    applyBlockquotePrefix (stripBq (str "> hello")) (str "> ") = str "> hello" :=
  C5_blockquote_roundtrip (str "> hello") (str "> ") (by decide) (by decide) (by decide)

/-- Counterexample for claim C5 as stated: on the nested quote line
`"> > a"` stripping and then reapplying the captured prefix via
`applyBlockquotePrefix` loses one quoting level, a difference that is not
confined to trailing whitespace. -/
theorem C5_nested_quote_cx :
    getBlockquotePrefix (str "> > a") = some (str "> ") ∧
    applyBlockquotePrefix (stripBq (str "> > a")) (str "> ") = str "> a" ∧
    jsTrimEnd (str "> a") ≠ jsTrimEnd (str "> > a") := by
  decide
